import Mathlib

/-!
Shallow embedding of the layout-and-interaction engine of the `web-graph`
repository (`src/graph.rs`).

Modelling conventions:
* `f64` values are modelled as real numbers (`ℝ`).
* JavaScript `Math.atan2 y x` is modelled as `Complex.arg ⟨x, y⟩`, which has the
  same value on every quadrant and also agrees at the origin (`arg 0 = 0`,
  `Math.atan2(0,0) = 0`).
* The two nested `HashMap<Node, HashMap<Node, Rc<EdgeState>>>` adjacency
  indices are flattened to association lists keyed by the pair of nodes; the
  node map `HashMap<Node, Rc<RefCell<NodeState>>>` is an association list from
  handles to node states.  `HashMap::insert` replaces the value stored under an
  existing key, which `insertA` mirrors; in-place mutation through `RefCell`
  is modelled by `updateA` together with re-reading the list at each borrow.
* The `unwrap()` calls on node lookups in `walk_edges` and `draw` are modelled
  by making both functions `Option`-valued: a failing lookup (a panic in the
  source) yields `none`.
* The canvas element, the 2D context and the DOM are external resources: the
  canvas is dropped from the `Graph` state, `draw` takes the canvas dimensions
  and device pixel ratio as arguments and returns the list of emitted draw
  calls, and the bounding client rect used by `adjust_mouse_position` is an
  argument carried by each mouse-move event.
-/

namespace WebGraph

/-- Clamp bound for a single movement, `MAX_MOVE` in the source. -/
noncomputable def MAX_MOVE : ℝ := 5.0

/-- Two-dimensional point, `Position` in the source (`f64` fields as reals). -/
structure Position where
  x : ℝ
  y : ℝ

/-- Node extent, `Size` in the source. -/
structure Size where
  width : ℝ
  height : ℝ

/-- Opaque node handle, `Node` in the source (`id: usize`). -/
structure Node where
  id : Nat
  deriving DecidableEq

/-- Caller payload of a node, `NodeProperties` in the source. -/
structure NodeProperties where
  label : String

/-- Caller payload of an edge, `EdgeProperties` in the source (`weight: usize`). -/
structure EdgeProperties where
  weight : Nat
  deriving DecidableEq

/-- Stored edge state, `EdgeState` in the source. -/
structure EdgeState where
  properties : EdgeProperties
  deriving DecidableEq

/-- Stored node state, `NodeState` in the source. -/
structure NodeState where
  properties : NodeProperties
  handle : Node
  position : Position
  size : Size

/-- Argument type of `remove_edge`, `Edge` in the source (an empty struct). -/
structure Edge

/-- Euclidean distance, `Position::delta` in the source:
`sqrt(pow(other.x - self.x, 2.0) + pow(other.y - self.y, 2.0))`. -/
noncomputable def Position.delta (self other : Position) : ℝ :=
  Real.sqrt ((other.x - self.x) ^ 2 + (other.y - self.y) ^ 2)

/-- JavaScript `Math.atan2 y x`, modelled as the argument of the complex
number `x + y·i`. -/
noncomputable def atan2 (y x : ℝ) : ℝ :=
  Complex.arg ⟨x, y⟩

/-- Inclusive bounding-box test, `NodeState::contains` in the source. -/
def NodeState.contains (s : NodeState) (p : Position) : Prop :=
  p.x ≥ s.position.x ∧ p.y ≥ s.position.y ∧
    p.x ≤ s.position.x + s.size.width ∧ p.y ≤ s.position.y + s.size.height

/-- Recenter a node on a point, `NodeState::set_centered` in the source. -/
noncomputable def NodeState.set_centered (s : NodeState) (p : Position) : NodeState :=
  { s with position := ⟨p.x - s.size.width / 2, p.y - s.size.height / 2⟩ }

/-- Center of a node's bounding box, `NodeState::center` in the source. -/
noncomputable def NodeState.center (s : NodeState) : Position :=
  ⟨s.position.x + s.size.width / 2, s.position.y + s.size.height / 2⟩

/-- Clamped movement toward an aim point, `NodeState::move_to` in the source:
the amount is clamped to `[-MAX_MOVE, MAX_MOVE]`, the direction is the angle
from the node's current position to the aim point. -/
noncomputable def NodeState.move_to (s : NodeState) (amount : ℝ) (p : Position) : NodeState :=
  let amount := max (min amount MAX_MOVE) (-MAX_MOVE)
  let angle := atan2 (p.y - s.position.y) (p.x - s.position.x)
  { s with position :=
      ⟨s.position.x + Real.cos angle * amount, s.position.y + Real.sin angle * amount⟩ }

/-- Association-list lookup, models `HashMap::get`. -/
def lookupA {α β : Type} [DecidableEq α] (l : List (α × β)) (k : α) : Option β :=
  match l with
  | [] => none
  | (k', v') :: rest => if k' = k then some v' else lookupA rest k

/-- Association-list insert, models `HashMap::insert`: the value stored under
an existing key is replaced, otherwise the binding is appended. -/
def insertA {α β : Type} [DecidableEq α] (l : List (α × β)) (k : α) (v : β) :
    List (α × β) :=
  match l with
  | [] => [(k, v)]
  | (k', v') :: rest => if k' = k then (k, v) :: rest else (k', v') :: insertA rest k v

/-- Replace the value stored under a key, models in-place mutation of the
`RefCell` content reachable through a `HashMap` entry. -/
def updateA {α β : Type} [DecidableEq α] (l : List (α × β)) (k : α) (v : β) :
    List (α × β) :=
  l.map fun e => (e.1, if e.1 = k then v else e.2)

/-- Number of bindings an association list holds for one key. -/
def countKey {α β : Type} [DecidableEq α] (l : List (α × β)) (k : α) : Nat :=
  match l with
  | [] => 0
  | (k', _) :: rest => (if k' = k then 1 else 0) + countKey rest k

/-- The graph state, `Graph` in the source (without the canvas handle, an
external DOM resource). -/
structure Graph where
  counter : Nat
  nodes : List (Node × NodeState)
  edges : List ((Node × Node) × EdgeState)
  edges_rev : List ((Node × Node) × EdgeState)
  hovering : Option Node
  dragging : Bool

/-- Fresh graph, `Graph::new` in the source. -/
def Graph.new : Graph :=
  { counter := 0, nodes := [], edges := [], edges_rev := [],
    hovering := none, dragging := false }

/-- Node insertion, `Graph::add_node` in the source: allocates the next
counter value as the handle, stores the state, returns the handle. -/
def Graph.add_node (g : Graph) (position : Position) (size : Size)
    (node : NodeProperties) : Graph × Node :=
  let handle : Node := ⟨g.counter⟩
  let state : NodeState :=
    { properties := node, handle := handle, position := position, size := size }
  ({ g with counter := g.counter + 1, nodes := insertA g.nodes handle state }, handle)

/-- Declared-but-unimplemented removal, `Graph::remove_node` in the source
(an empty body). -/
def Graph.remove_node (g : Graph) (node : Node) : Graph := g

/-- Declared-but-unimplemented removal, `Graph::remove_edge` in the source
(an empty body). -/
def Graph.remove_edge (g : Graph) (edge : Edge) : Graph := g

/-- Canonical ordering of an edge's endpoints as performed by `add_edge`:
the node with the smaller id comes first (the `swap` in the source). -/
def canonPair (a b : Node) : Node × Node :=
  if a.id < b.id then (a, b) else (b, a)

/-- Edge insertion, `Graph::add_edge` in the source: returns unchanged on a
self-loop (`Ordering::Equal`), otherwise canonicalizes the pair and inserts
the shared edge state into the forward index under `(lesser, greater)` and
into the reverse index under `(greater, lesser)`. -/
def Graph.add_edge (g : Graph) (a b : Node) (edge : EdgeProperties) : Graph :=
  let state : EdgeState := { properties := edge }
  if a = b then g
  else
    let p := canonPair a b
    { g with
        edges := insertA g.edges p state,
        edges_rev := insertA g.edges_rev (p.2, p.1) state }

/-- Distance from which the relaxation delta is computed in
`Graph::walk_edges`: `abs(from_state.borrow().position.delta(to_state.borrow().position))`
— the Euclidean distance between the two stored `position` fields. -/
noncomputable def walkEdgeDistance (fromS toS : NodeState) : ℝ :=
  |fromS.position.delta toS.position|

/-- Modelled from the spec's words, for comparison with `walkEdgeDistance`
(claim C2): the Euclidean distance between the two nodes' centers. -/
noncomputable def specCenterDistance (fromS toS : NodeState) : ℝ :=
  fromS.center.delta toS.center

/-- Relaxation delta of one edge: distance minus the rest length (the edge
weight), `let delta = distance - edge.properties.weight as f64` in the
source. -/
noncomputable def edgeDelta (fromS toS : NodeState) (w : Nat) : ℝ :=
  walkEdgeDistance fromS toS - (w : ℝ)

/-- Second half of the per-edge relaxation of `Graph::walk_edges`: the move
applied to the `to` endpoint.  Both states are re-read from the store because
the `from` endpoint may just have moved (the source reads
`from_state.borrow().center()` after the first `move_to`). -/
noncomputable def processEdgeSnd (dragging : Bool) (hovering : Option Node)
    (nodes1 : List (Node × NodeState)) (e : (Node × Node) × EdgeState)
    (delta : ℝ) : Option (List (Node × NodeState)) :=
  match lookupA nodes1 e.1.1, lookupA nodes1 e.1.2 with
  | some fromS1, some toS1 =>
    some (if dragging = false ∨ hovering ≠ some e.1.2 then
        updateA nodes1 e.1.2 (toS1.move_to (delta / 2) fromS1.center)
      else nodes1)
  | _, _ => none

/-- One edge of the relaxation pass of `Graph::walk_edges`: the body of the
inner `for (to, edge)` loop.  The node list plays the role of the shared
`RefCell` store: every `borrow()` in the source is a fresh lookup.  A failing
lookup (an `unwrap()` panic in the source) yields `none`.  If the delta is
within the 0.1 tolerance nothing moves; otherwise the `from` endpoint is
moved first (unless it is the drag target), then the `to` endpoint. -/
noncomputable def processEdge (dragging : Bool) (hovering : Option Node)
    (nodes : List (Node × NodeState)) (e : (Node × Node) × EdgeState) :
    Option (List (Node × NodeState)) :=
  match lookupA nodes e.1.1, lookupA nodes e.1.2 with
  | some fromS, some toS =>
    if |edgeDelta fromS toS e.2.properties.weight| > 0.1 then
      processEdgeSnd dragging hovering
        (if dragging = false ∨ hovering ≠ some e.1.1 then
          updateA nodes e.1.1
            (fromS.move_to (edgeDelta fromS toS e.2.properties.weight / 2) toS.center)
        else nodes)
        e (edgeDelta fromS toS e.2.properties.weight)
    else some nodes
  | _, _ => none

/-- One relaxation pass, `Graph::walk_edges` in the source: every stored
forward edge is processed once, in order, threading the mutated node store. -/
noncomputable def Graph.walk_edges (g : Graph) : Option Graph :=
  (g.edges.foldlM (fun ns e => processEdge g.dragging g.hovering ns e) g.nodes).map
    fun ns => { g with nodes := ns }

/-- One animation-frame step, `Graph::tick` in the source: runs `walk_edges`
(the `walk_all_nodes` repulsion pass is commented out in the source). -/
noncomputable def Graph.tick (g : Graph) : Option Graph :=
  g.walk_edges

/-- A draw call emitted against the 2D context. -/
inductive DrawOp where
  | clearRect (x y w h : ℝ)
  | scale (sx sy : ℝ)
  | line (p1 p2 : Position)
  | setFillStyle (color : String)
  | fillRect (p : Position) (s : Size)
  | strokeRect (p : Position) (s : Size) (lineWidth : ℝ)

/-- One edge of the edge-drawing loop of `Graph::draw`: look both endpoints
up in the node map (`unwrap()` modelled as `none`) and append the line
between the two centers. -/
noncomputable def drawEdgeOps (nodes : List (Node × NodeState)) (acc : List DrawOp)
    (ent : (Node × Node) × EdgeState) : Option (List DrawOp) :=
  match lookupA nodes ent.1.1, lookupA nodes ent.1.2 with
  | some fromS, some toS => some (acc ++ [DrawOp.line fromS.center toS.center])
  | _, _ => none

/-- Frame rendering, `Graph::draw` in the source: clear, scale by the device
pixel ratio, draw every edge as a line between the endpoint centers, then
every node as a filled and stroked rectangle, the stroke width 5 for the
hovered node and 1 otherwise. -/
noncomputable def Graph.draw (g : Graph) (width height dpi : ℝ) :
    Option (List DrawOp) :=
  (g.edges.foldlM (drawEdgeOps g.nodes) []).map fun edgeOps =>
    [DrawOp.clearRect 0 0 width height, DrawOp.scale dpi dpi,
        DrawOp.setFillStyle "red"] ++ edgeOps ++
      (g.nodes.map fun nt =>
        [DrawOp.fillRect nt.2.position nt.2.size,
         DrawOp.strokeRect nt.2.position nt.2.size
           (if g.hovering = some nt.1 then 5 else 1)]).flatten

/-- Translation from client coordinates to surface-local coordinates,
`Graph::adjust_mouse_position` in the source; `rect` carries the canvas
bounding client rect's `(left, top)`. -/
noncomputable def adjust_mouse_position (rect : Position) (position : Position) : Position :=
  ⟨position.x - rect.x, position.y - rect.y⟩

open Classical in
/-- Hit test, `Graph::first_node` in the source: the first stored node whose
bounding box contains the point. -/
noncomputable def Graph.first_node (g : Graph) (p : Position) :
    Option (Node × NodeState) :=
  g.nodes.find? fun nt => decide (nt.2.contains p)

open Classical in
/-- First phase of `Graph::mouse_move`: the
`if let Some(selected) = self.hovering.and_then(...)` block — while dragging
the hovered node is recentred on the pointer; otherwise the hover is dropped
when the pointer left the hovered box. -/
noncomputable def Graph.mouseMoveHoverPhase (g : Graph) (position : Position) : Graph :=
  match g.hovering with
  | none => g
  | some n =>
    match lookupA g.nodes n with
    | none => g
    | some selected =>
      if g.dragging then
        { g with nodes := updateA g.nodes n (selected.set_centered position) }
      else if ¬ selected.contains position then
        { g with hovering := none }
      else
        g

/-- Pointer-move handler, `Graph::mouse_move` in the source: the hover phase
above, then — if no node is hovered — a new hover target is searched with
`first_node`. -/
noncomputable def Graph.mouse_move (g : Graph) (client rect : Position) : Graph :=
  let position := adjust_mouse_position rect client
  let g1 := g.mouseMoveHoverPhase position
  if g1.hovering = none then
    { g1 with hovering := (g1.first_node position).map Prod.fst }
  else
    g1

/-- Pointer-down handler, `Graph::mouse_down` in the source. -/
def Graph.mouse_down (g : Graph) : Graph :=
  { g with dragging := g.hovering.isSome }

/-- Pointer-up handler, `Graph::mouse_up` in the source. -/
def Graph.mouse_up (g : Graph) : Graph :=
  { g with dragging := false }

/-- Pointer-leave handler, `Graph::mouse_out` in the source. -/
def Graph.mouse_out (g : Graph) : Graph :=
  { g with dragging := false, hovering := none }

/-- A pointer event as routed by the listeners registered in `Graph::run`;
a move event carries the client position and the canvas bounding rect. -/
inductive Event where
  | move (client rect : Position)
  | down
  | up
  | out

/-- Dispatch of one pointer event to its handler. -/
noncomputable def Graph.applyEvent (g : Graph) : Event → Graph
  | .move c r => g.mouse_move c r
  | .down => g.mouse_down
  | .up => g.mouse_up
  | .out => g.mouse_out

/-- Dispatch of a sequence of pointer events. -/
noncomputable def Graph.applyEvents (g : Graph) (es : List Event) : Graph :=
  es.foldl Graph.applyEvent g

/-- A call against the graph-construction API. -/
inductive BuildOp where
  | addNode (position : Position) (size : Size) (props : NodeProperties)
  | addEdge (a b : Node) (props : EdgeProperties)
  | removeNode (n : Node)
  | removeEdge

/-- Application of one construction call. -/
def Graph.applyOp (g : Graph) : BuildOp → Graph
  | .addNode p s props => (g.add_node p s props).1
  | .addEdge a b props => g.add_edge a b props
  | .removeNode n => g.remove_node n
  | .removeEdge => g.remove_edge ⟨⟩

/-- Graph obtained by running construction calls from a start state. -/
def Graph.buildFrom (g : Graph) (ops : List BuildOp) : Graph :=
  ops.foldl Graph.applyOp g

/-- Graph obtained by running construction calls from `Graph.new`. -/
def build (ops : List BuildOp) : Graph :=
  Graph.buildFrom Graph.new ops

/-- A construction sequence is valid when every `addEdge` uses handles that
`add_node` has previously returned on the same graph: both ids are below the
number of nodes added so far. -/
def ValidOps : Nat → List BuildOp → Prop
  | _, [] => True
  | c, BuildOp.addNode _ _ _ :: rest => ValidOps (c + 1) rest
  | c, BuildOp.addEdge a b _ :: rest => a.id < c ∧ b.id < c ∧ ValidOps c rest
  | c, BuildOp.removeNode _ :: rest => ValidOps c rest
  | c, BuildOp.removeEdge :: rest => ValidOps c rest

/-- Well-formedness used by the lookup-safety claim: every stored forward
edge's endpoints are present in the node map. -/
def WellFormed (g : Graph) : Prop :=
  ∀ ent ∈ g.edges, (lookupA g.nodes ent.1.1).isSome ∧ (lookupA g.nodes ent.1.2).isSome

/-- Intermediate invariant of graph construction: every id below the counter
is present in the node map, and every stored edge endpoint is below the
counter. -/
def GoodCounter (g : Graph) : Prop :=
  (∀ i, i < g.counter → (lookupA g.nodes ⟨i⟩).isSome) ∧
    (∀ ent ∈ g.edges, ent.1.1.id < g.counter ∧ ent.1.2.id < g.counter)

/-!  Concrete instances used to exercise the theorems below. -/

/-- Result of adding the same edge twice with different weights. -/
def doubleAddG : Graph :=
  (Graph.new.add_edge ⟨0⟩ ⟨1⟩ ⟨7⟩).add_edge ⟨0⟩ ⟨1⟩ ⟨9⟩

/-- A 10×10 node anchored at the origin. -/
noncomputable def originBox : NodeState :=
  ⟨⟨"a"⟩, ⟨0⟩, ⟨0, 0⟩, ⟨10, 10⟩⟩

/-- A 30×10 node anchored at `(100, 0)`. -/
noncomputable def wideBox : NodeState :=
  ⟨⟨"b"⟩, ⟨1⟩, ⟨100, 0⟩, ⟨30, 10⟩⟩

/-- A 10×10 node anchored at `(3, 4)`. -/
noncomputable def offsetBox : NodeState :=
  ⟨⟨"c"⟩, ⟨1⟩, ⟨3, 4⟩, ⟨10, 10⟩⟩

/-- Size-zero node at the origin, handle 0. -/
noncomputable def pointA : NodeState := ⟨⟨"a"⟩, ⟨0⟩, ⟨0, 0⟩, ⟨0, 0⟩⟩

/-- Size-zero node at `(3, 4)`, handle 1. -/
noncomputable def pointB34 : NodeState := ⟨⟨"b"⟩, ⟨1⟩, ⟨3, 4⟩, ⟨0, 0⟩⟩

/-- Size-zero node at `(10, 0)`, handle 1. -/
noncomputable def pointB10 : NodeState := ⟨⟨"b"⟩, ⟨1⟩, ⟨10, 0⟩, ⟨0, 0⟩⟩

/-- Size-zero node at `(20, 0)`, handle 2. -/
noncomputable def pointC20 : NodeState := ⟨⟨"c"⟩, ⟨2⟩, ⟨20, 0⟩, ⟨0, 0⟩⟩

/-- Two nodes at distance 5 joined by a settled edge of rest length 5, with
node 0 being dragged. -/
noncomputable def dragSettledG : Graph :=
  { counter := 2, nodes := [(⟨0⟩, pointA), (⟨1⟩, pointB34)],
    edges := [((⟨0⟩, ⟨1⟩), ⟨⟨5⟩⟩)], edges_rev := [((⟨1⟩, ⟨0⟩), ⟨⟨5⟩⟩)],
    hovering := some ⟨0⟩, dragging := true }

/-- Three collinear nodes: the edge `(0,1)` is exactly at its rest length 10,
the edge `(1,2)` is far below its rest length 100, no interaction. -/
noncomputable def settledPlusActiveG : Graph :=
  { counter := 3, nodes := [(⟨0⟩, pointA), (⟨1⟩, pointB10), (⟨2⟩, pointC20)],
    edges := [((⟨0⟩, ⟨1⟩), ⟨⟨10⟩⟩), ((⟨1⟩, ⟨2⟩), ⟨⟨100⟩⟩)],
    edges_rev := [((⟨1⟩, ⟨0⟩), ⟨⟨10⟩⟩), ((⟨2⟩, ⟨1⟩), ⟨⟨100⟩⟩)],
    hovering := none, dragging := false }

/-- Two nodes at distance 10 joined by a single settled edge of rest length
10, no interaction. -/
noncomputable def settledOnlyG : Graph :=
  { counter := 2, nodes := [(⟨0⟩, pointA), (⟨1⟩, pointB10)],
    edges := [((⟨0⟩, ⟨1⟩), ⟨⟨10⟩⟩)], edges_rev := [((⟨1⟩, ⟨0⟩), ⟨⟨10⟩⟩)],
    hovering := none, dragging := false }

/-- One 10×10 node at the origin, nothing else. -/
noncomputable def singleNodeG : Graph :=
  { counter := 1, nodes := [(⟨0⟩, originBox)], edges := [], edges_rev := [],
    hovering := none, dragging := false }

/-- A graph holding an edge whose second endpoint handle was never returned
by `add_node` on this graph: node-map lookups for it fail. -/
noncomputable def foreignHandleG : Graph :=
  ((Graph.new.add_node ⟨0, 0⟩ ⟨1, 1⟩ ⟨"a"⟩).1).add_edge ⟨0⟩ ⟨5⟩ ⟨3⟩

/-- A valid construction sequence: two nodes, one edge between them. -/
noncomputable def validOpsExample : List BuildOp :=
  [.addNode ⟨0, 0⟩ ⟨1, 1⟩ ⟨"a"⟩, .addNode ⟨3, 4⟩ ⟨1, 1⟩ ⟨"b"⟩,
   .addEdge ⟨0⟩ ⟨1⟩ ⟨5⟩]

/-!  Association-list lemmas. -/

theorem lookupA_insertA_self {α β : Type} [DecidableEq α] (l : List (α × β)) (k : α) (v : β) :
    lookupA (insertA l k v) k = some v := by
  induction l with
  | nil => simp [insertA, lookupA]
  | cons e rest ih =>
    obtain ⟨k', v'⟩ := e
    by_cases h : k' = k
    · simp [insertA, lookupA, h]
    · simp only [insertA, lookupA, if_neg h]
      exact ih

theorem lookupA_insertA_ne {α β : Type} [DecidableEq α] (l : List (α × β)) (k k' : α) (v : β)
    (h : k ≠ k') : lookupA (insertA l k v) k' = lookupA l k' := by
  induction l with
  | nil => simp [insertA, lookupA, h]
  | cons e rest ih =>
    obtain ⟨k'', v''⟩ := e
    by_cases h2 : k'' = k
    · subst h2
      simp [insertA, lookupA, h]
    · simp only [insertA, lookupA, if_neg h2]
      by_cases h3 : k'' = k'
      · simp [lookupA, h3]
      · simp [lookupA, if_neg h3, ih]

theorem countKey_insertA {α β : Type} [DecidableEq α] (l : List (α × β)) (k : α) (v : β)
    (h : countKey l k ≤ 1) : countKey (insertA l k v) k = 1 := by
  revert h
  induction l with
  | nil => intro _; simp [insertA, countKey]
  | cons e rest ih =>
    intro h
    obtain ⟨k', v'⟩ := e
    simp only [countKey] at h
    by_cases h2 : k' = k
    · rw [if_pos h2] at h
      simp only [insertA, if_pos h2, countKey]
      simp only [if_true]
      omega
    · rw [if_neg h2] at h
      simp only [insertA, if_neg h2, countKey, if_neg h2, Nat.zero_add] at h ⊢
      exact ih h

theorem mem_insertA {α β : Type} [DecidableEq α] (l : List (α × β)) (k : α) (v : β)
    (ent : α × β) (h : ent ∈ insertA l k v) : ent = (k, v) ∨ ent ∈ l := by
  revert h
  induction l with
  | nil => intro h; simpa [insertA] using h
  | cons e rest ih =>
    intro h
    obtain ⟨k', v'⟩ := e
    simp only [insertA] at h
    by_cases h2 : k' = k
    · rw [if_pos h2] at h
      rcases List.mem_cons.mp h with h | h
      · exact Or.inl h
      · exact Or.inr (List.mem_cons_of_mem _ h)
    · rw [if_neg h2] at h
      rcases List.mem_cons.mp h with h | h
      · exact Or.inr (h ▸ List.mem_cons_self _ _)
      · rcases ih h with h | h
        · exact Or.inl h
        · exact Or.inr (List.mem_cons_of_mem _ h)

theorem lookupA_updateA_self {α β : Type} [DecidableEq α] (l : List (α × β)) (k : α) (v : β) :
    lookupA (updateA l k v) k = (lookupA l k).map fun _ => v := by
  induction l with
  | nil => simp [updateA, lookupA]
  | cons e rest ih =>
    obtain ⟨k', v'⟩ := e
    simp only [updateA, List.map_cons] at ih ⊢
    by_cases h : k' = k
    · simp [lookupA, if_pos h]
    · simp [lookupA, if_neg h, ih]

theorem lookupA_updateA_ne {α β : Type} [DecidableEq α] (l : List (α × β)) (k k' : α) (v : β)
    (h : k ≠ k') : lookupA (updateA l k v) k' = lookupA l k' := by
  induction l with
  | nil => simp [updateA, lookupA]
  | cons e rest ih =>
    obtain ⟨k'', v''⟩ := e
    simp only [updateA, List.map_cons] at ih ⊢
    by_cases h3 : k'' = k'
    · have h4 : ¬ (k'' = k) := fun hk => h (hk ▸ h3)
      simp [lookupA, if_pos h3, if_neg h4]
    · simp [lookupA, if_neg h3, ih]

theorem isSome_lookupA_updateA {α β : Type} [DecidableEq α] (l : List (α × β)) (k k' : α)
    (v : β) : (lookupA (updateA l k v) k').isSome = (lookupA l k').isSome := by
  by_cases h : k = k'
  · subst h
    rw [lookupA_updateA_self]
    cases lookupA l k <;> rfl
  · rw [lookupA_updateA_ne _ _ _ _ h]

/-!  Invariant lemmas for `Option`-valued folds. -/

theorem foldlM_some_invariant {α β : Type} (f : β → α → Option β) (Inv : β → Prop) :
    ∀ (l : List α) (b b' : β), l.foldlM f b = some b' → Inv b →
      (∀ a ∈ l, ∀ x y, Inv x → f x a = some y → Inv y) → Inv b' := by
  intro l
  induction l with
  | nil =>
    intro b b' h hb _
    simp only [List.foldlM_nil] at h
    cases h
    exact hb
  | cons a rest ih =>
    intro b b' h hb hstep
    rw [List.foldlM_cons] at h
    rcases Option.bind_eq_some.mp h with ⟨b1, hfb, hrest⟩
    exact ih b1 b' hrest (hstep a (List.mem_cons_self a rest) b b1 hb hfb)
      fun a' ha' => hstep a' (List.mem_cons_of_mem _ ha')

theorem foldlM_isSome_invariant {α β : Type} (f : β → α → Option β) (Inv : β → Prop) :
    ∀ (l : List α) (b : β), Inv b →
      (∀ a ∈ l, ∀ x, Inv x → ∃ y, f x a = some y ∧ Inv y) →
      ∃ b', l.foldlM f b = some b' ∧ Inv b' := by
  intro l
  induction l with
  | nil =>
    intro b hb _
    exact ⟨b, by simp [List.foldlM_nil], hb⟩
  | cons a rest ih =>
    intro b hb hstep
    obtain ⟨b1, hfb, hb1⟩ := hstep a (List.mem_cons_self a rest) b hb
    obtain ⟨b', hfold, hb'⟩ := ih b1 hb1 fun a' ha' => hstep a' (List.mem_cons_of_mem _ ha')
    exact ⟨b', by rw [List.foldlM_cons, hfb]; exact hfold, hb'⟩

/-!  Behaviour of one per-edge relaxation step. -/

theorem processEdgeSnd_preserves_lookup (d : Bool) (hov : Option Node)
    (nodes1 ns' : List (Node × NodeState)) (e : (Node × Node) × EdgeState)
    (delta : ℝ) (n : Node)
    (hto : e.1.2 = n → ¬ (d = false ∨ hov ≠ some e.1.2))
    (hp : processEdgeSnd d hov nodes1 e delta = some ns') :
    lookupA ns' n = lookupA nodes1 n := by
  unfold processEdgeSnd at hp
  split at hp
  · rename_i fromS1 toS1 _ _
    injection hp with hp
    subst hp
    by_cases hc : d = false ∨ hov ≠ some e.1.2
    · rw [if_pos hc]
      by_cases he : e.1.2 = n
      · exact absurd hc (hto he)
      · exact lookupA_updateA_ne _ _ _ _ he
    · rw [if_neg hc]
  · exact absurd hp (by simp)

theorem processEdge_preserves_lookup (d : Bool) (hov : Option Node)
    (ns ns' : List (Node × NodeState)) (e : (Node × Node) × EdgeState) (n : Node)
    (hfrom : e.1.1 = n → ¬ (d = false ∨ hov ≠ some e.1.1))
    (hto : e.1.2 = n → ¬ (d = false ∨ hov ≠ some e.1.2))
    (hp : processEdge d hov ns e = some ns') :
    lookupA ns' n = lookupA ns n := by
  unfold processEdge at hp
  split at hp
  · rename_i fromS toS _ _
    split at hp
    · rw [processEdgeSnd_preserves_lookup d hov _ ns' e _ n hto hp]
      by_cases hc : d = false ∨ hov ≠ some e.1.1
      · by_cases he : e.1.1 = n
        · exact absurd hc (hfrom he)
        · rw [if_pos hc]
          exact lookupA_updateA_ne _ _ _ _ he
      · rw [if_neg hc]
    · injection hp with hp
      rw [← hp]
  · exact absurd hp (by simp)

theorem processEdge_settled (d : Bool) (hov : Option Node)
    (ns : List (Node × NodeState)) (e : (Node × Node) × EdgeState)
    (fromS toS : NodeState)
    (h1 : lookupA ns e.1.1 = some fromS) (h2 : lookupA ns e.1.2 = some toS)
    (hs : ¬ (|edgeDelta fromS toS e.2.properties.weight| > 0.1)) :
    processEdge d hov ns e = some ns := by
  unfold processEdge
  rw [h1, h2]
  exact if_neg hs

theorem processEdge_isSome (d : Bool) (hov : Option Node)
    (ns : List (Node × NodeState)) (e : (Node × Node) × EdgeState)
    (h1 : (lookupA ns e.1.1).isSome) (h2 : (lookupA ns e.1.2).isSome) :
    ∃ ns', processEdge d hov ns e = some ns' ∧
      ∀ k, (lookupA ns' k).isSome = (lookupA ns k).isSome := by
  obtain ⟨fromS, hf⟩ := Option.isSome_iff_exists.mp h1
  obtain ⟨toS, ht⟩ := Option.isSome_iff_exists.mp h2
  unfold processEdge
  rw [hf, ht]
  dsimp only
  by_cases hδ : |edgeDelta fromS toS e.2.properties.weight| > 0.1
  · rw [if_pos hδ]
    set nodes1 := if d = false ∨ hov ≠ some e.1.1 then
        updateA ns e.1.1
          (fromS.move_to (edgeDelta fromS toS e.2.properties.weight / 2) toS.center)
      else ns with hns1
    have hpres : ∀ k, (lookupA nodes1 k).isSome = (lookupA ns k).isSome := by
      intro k
      rw [hns1]
      by_cases hc : d = false ∨ hov ≠ some e.1.1
      · rw [if_pos hc]
        exact isSome_lookupA_updateA _ _ _ _
      · rw [if_neg hc]
    have hb1 : (lookupA nodes1 e.1.1).isSome := by rw [hpres]; exact h1
    have hb2 : (lookupA nodes1 e.1.2).isSome := by rw [hpres]; exact h2
    obtain ⟨fromS1, hf1⟩ := Option.isSome_iff_exists.mp hb1
    obtain ⟨toS1, ht1⟩ := Option.isSome_iff_exists.mp hb2
    unfold processEdgeSnd
    rw [hf1, ht1]
    refine ⟨_, rfl, fun k => ?_⟩
    by_cases hc2 : d = false ∨ hov ≠ some e.1.2
    · rw [if_pos hc2, isSome_lookupA_updateA, hpres]
    · rw [if_neg hc2, hpres]
  · rw [if_neg hδ]
    exact ⟨ns, rfl, fun k => rfl⟩

/-!  Behaviour of the pointer handlers. -/

theorem mouseMoveHoverPhase_dragging (g : Graph) (position : Position) :
    (g.mouseMoveHoverPhase position).dragging = g.dragging := by
  unfold Graph.mouseMoveHoverPhase
  split
  · rfl
  · split
    · rfl
    · split
      · rfl
      · split
        · rfl
        · rfl

theorem mouse_move_dragging (g : Graph) (client rect : Position) :
    (g.mouse_move client rect).dragging = g.dragging := by
  unfold Graph.mouse_move
  dsimp only
  split
  · exact mouseMoveHoverPhase_dragging g _
  · exact mouseMoveHoverPhase_dragging g _

theorem mouseMoveHoverPhase_hovering_of_dragging (g : Graph) (position : Position)
    (n : Node) (hd : g.dragging = true) (hn : g.hovering = some n) :
    (g.mouseMoveHoverPhase position).hovering = some n := by
  unfold Graph.mouseMoveHoverPhase
  rw [hn]
  dsimp only
  cases hl : lookupA g.nodes n with
  | none => exact hn
  | some selected =>
    dsimp only
    rw [if_pos hd]

theorem mouse_move_hovering_of_dragging (g : Graph) (client rect : Position)
    (n : Node) (hd : g.dragging = true) (hn : g.hovering = some n) :
    (g.mouse_move client rect).hovering = some n := by
  unfold Graph.mouse_move
  dsimp only
  have hph := mouseMoveHoverPhase_hovering_of_dragging g
    (adjust_mouse_position rect client) n hd hn
  rw [if_neg (by rw [hph]; exact fun h => Option.noConfusion h)]
  exact hph

/-- The drag-implies-hover invariant is preserved by every single event. -/
theorem applyEvent_drag_inv (g : Graph) (e : Event)
    (h : g.dragging = true → g.hovering.isSome) :
    (g.applyEvent e).dragging = true → (g.applyEvent e).hovering.isSome := by
  cases e with
  | down =>
    intro hd
    exact hd
  | up => intro hd; exact absurd hd (by simp [Graph.applyEvent, Graph.mouse_up])
  | out => intro hd; exact absurd hd (by simp [Graph.applyEvent, Graph.mouse_out])
  | move c r =>
    intro hd
    have hd0 : g.dragging = true := by
      rw [← mouse_move_dragging g c r]
      exact hd
    obtain ⟨n, hn⟩ := Option.isSome_iff_exists.mp (h hd0)
    have := mouse_move_hovering_of_dragging g c r n hd0 hn
    simp only [Graph.applyEvent]
    rw [this]
    rfl

theorem applyEvents_drag_inv (es : List Event) :
    ∀ g : Graph, (g.dragging = true → g.hovering.isSome) →
      ((g.applyEvents es).dragging = true → (g.applyEvents es).hovering.isSome) := by
  induction es with
  | nil => intro g h; exact h
  | cons e rest ih =>
    intro g h
    exact ih (g.applyEvent e) (applyEvent_drag_inv g e h)

/-!  Hit-testing. -/

theorem find?_eq_some_of_unique {α : Type} (p : α → Bool) (l : List α) (x : α)
    (hx : x ∈ l) (hpx : p x = true) (huniq : ∀ y ∈ l, p y = true → y = x) :
    l.find? p = some x := by
  induction l with
  | nil => cases hx
  | cons a rest ih =>
    by_cases ha : p a = true
    · rw [List.find?_cons_of_pos _ ha]
      rw [huniq a (List.mem_cons_self a rest) ha]
    · rw [List.find?_cons_of_neg _ ha]
      rcases List.mem_cons.mp hx with h | h
      · exact absurd (h ▸ hpx) ha
      · exact ih h fun y hy => huniq y (List.mem_cons_of_mem _ hy)

/-- Evaluation helper: a `Position.delta` whose radicand is a known square. -/
theorem Position.delta_eval (p q : Position) (r : ℝ) (hr : 0 ≤ r)
    (h : (q.x - p.x) ^ 2 + (q.y - p.y) ^ 2 = r ^ 2) : Position.delta p q = r := by
  unfold Position.delta
  rw [h, Real.sqrt_sq hr]

/-- C1 counterexample: adding the same pair twice stores the SECOND weight —
`HashMap::insert` overwrites, so the first insertion is not sticky.  There is
still exactly one stored edge. -/
theorem add_edge_first_insert_sticky_cex :
    lookupA doubleAddG.edges (⟨0⟩, ⟨1⟩) = some ⟨⟨9⟩⟩ ∧
      lookupA doubleAddG.edges (⟨0⟩, ⟨1⟩) ≠ some ⟨⟨7⟩⟩ ∧
      doubleAddG.edges.length = 1 := by
  refine ⟨by decide, by decide, by decide⟩

/-- C1 (amended): `add_edge(a,b,w)` then `add_edge(a,b,w2)` leaves exactly one
stored edge for the unordered pair, and its weight is `w2` — the second call
overwrites the stored edge state (last writer wins). -/
theorem add_edge_second_insert_overwrites (g : Graph) (a b : Node)
    (w w2 : EdgeProperties) (hab : a ≠ b)
    (hcount : countKey g.edges (canonPair a b) ≤ 1) :
    lookupA ((g.add_edge a b w).add_edge a b w2).edges (canonPair a b) = some ⟨w2⟩ ∧
      countKey ((g.add_edge a b w).add_edge a b w2).edges (canonPair a b) = 1 := by
  have hedges : ((g.add_edge a b w).add_edge a b w2).edges =
      insertA (insertA g.edges (canonPair a b) ⟨w⟩) (canonPair a b) ⟨w2⟩ := by
    simp [Graph.add_edge, if_neg hab]
  rw [hedges]
  exact ⟨lookupA_insertA_self _ _ _,
    countKey_insertA _ _ _ (le_of_eq (countKey_insertA _ _ _ hcount))⟩

/-- C1 witness: concrete double insertion on a fresh graph. -/
theorem add_edge_second_insert_overwrites_witness :
    ((⟨0⟩ : Node) ≠ ⟨1⟩ ∧ countKey Graph.new.edges (canonPair ⟨0⟩ ⟨1⟩) ≤ 1) ∧
      (lookupA ((Graph.new.add_edge ⟨0⟩ ⟨1⟩ ⟨7⟩).add_edge ⟨0⟩ ⟨1⟩ ⟨9⟩).edges
          (canonPair ⟨0⟩ ⟨1⟩) = some ⟨⟨9⟩⟩ ∧
        countKey ((Graph.new.add_edge ⟨0⟩ ⟨1⟩ ⟨7⟩).add_edge ⟨0⟩ ⟨1⟩ ⟨9⟩).edges
          (canonPair ⟨0⟩ ⟨1⟩) = 1) :=
  ⟨⟨by decide, by decide⟩,
    add_edge_second_insert_overwrites Graph.new ⟨0⟩ ⟨1⟩ ⟨7⟩ ⟨9⟩ (by decide) (by decide)⟩

/-- C2 counterexample: on two nodes of different sizes the distance used by
`walk_edges` (between the top-left `position` anchors) differs from the
distance between the centers, so the relaxation delta is NOT computed from
the center distance. -/
theorem walk_distance_uses_anchor_cex :
    walkEdgeDistance originBox wideBox = 100 ∧
      specCenterDistance originBox wideBox = 110 ∧
      walkEdgeDistance originBox wideBox ≠ specCenterDistance originBox wideBox := by
  have h1 : walkEdgeDistance originBox wideBox = 100 := by
    unfold walkEdgeDistance
    rw [Position.delta_eval _ _ 100 (by norm_num)
      (by simp only [originBox, wideBox]; norm_num)]
    norm_num
  have h2 : specCenterDistance originBox wideBox = 110 := by
    unfold specCenterDistance NodeState.center
    exact Position.delta_eval _ _ 110 (by norm_num)
      (by simp only [originBox, wideBox]; norm_num)
  refine ⟨h1, h2, ?_⟩
  rw [h1, h2]
  norm_num

/-- C2 (amended): the relaxation distance is the Euclidean distance between
the two nodes' top-left `position` anchors, not their centers; it coincides
with the center distance exactly when the two nodes have equal sizes. -/
theorem walk_distance_eq_center_distance_of_eq_size (s1 s2 : NodeState)
    (h : s1.size = s2.size) : walkEdgeDistance s1 s2 = specCenterDistance s1 s2 := by
  unfold walkEdgeDistance specCenterDistance Position.delta NodeState.center
  dsimp only
  rw [abs_of_nonneg (Real.sqrt_nonneg _)]
  congr 1
  rw [h]
  ring

/-- C2 witness: two equal-sized boxes. -/
theorem walk_distance_eq_center_distance_of_eq_size_witness :
    originBox.size = offsetBox.size ∧
      walkEdgeDistance originBox offsetBox = specCenterDistance originBox offsetBox :=
  ⟨rfl, walk_distance_eq_center_distance_of_eq_size originBox offsetBox rfl⟩

/-- C3: a single `move_to` displaces a node by at most `MAX_MOVE = 5.0`
surface units, for every input amount (positive or negative) and every aim
point: the clamp bounds the amount and the `(cos, sin)` direction vector has
unit length. -/
theorem move_to_displacement_bounded (s : NodeState) (amount : ℝ) (p : Position) :
    Position.delta s.position (s.move_to amount p).position ≤ MAX_MOVE := by
  unfold NodeState.move_to Position.delta
  dsimp only
  have hcs := Real.cos_sq_add_sin_sq (atan2 (p.y - s.position.y) (p.x - s.position.x))
  set θ := atan2 (p.y - s.position.y) (p.x - s.position.x)
  set amt := max (min amount MAX_MOVE) (-MAX_MOVE) with hamt
  have h1 : (s.position.x + Real.cos θ * amt - s.position.x) ^ 2 +
      (s.position.y + Real.sin θ * amt - s.position.y) ^ 2 = amt ^ 2 := by
    have hexp : (s.position.x + Real.cos θ * amt - s.position.x) ^ 2 +
        (s.position.y + Real.sin θ * amt - s.position.y) ^ 2 =
        (Real.cos θ ^ 2 + Real.sin θ ^ 2) * amt ^ 2 := by ring
    rw [hexp, hcs, one_mul]
  rw [h1, Real.sqrt_sq_eq_abs, abs_le]
  exact ⟨le_max_right _ _, max_le (min_le_right _ _) (by norm_num [MAX_MOVE])⟩

/-- C6: from any start state with no hover and no drag, every sequence of
pointer events keeps the invariant `dragging = true → hovering.isSome`; and
`mouse_up` and `mouse_out` always clear `dragging`. -/
theorem drag_implies_hover_invariant (g0 : Graph) (es : List Event)
    (h1 : g0.hovering = none) (h2 : g0.dragging = false) :
    ((g0.applyEvents es).dragging = true → (g0.applyEvents es).hovering.isSome) ∧
      (∀ g : Graph, g.mouse_up.dragging = false ∧ g.mouse_out.dragging = false) := by
  constructor
  · refine applyEvents_drag_inv es g0 fun hd => absurd (h2 ▸ hd) ?_
    simp
  · intro g
    exact ⟨rfl, rfl⟩

/-- C6 witness: a concrete press-release sequence on a fresh graph. -/
theorem drag_implies_hover_invariant_witness :
    (Graph.new.hovering = none ∧ Graph.new.dragging = false) ∧
      (((Graph.new.applyEvents [Event.down, Event.up]).dragging = true →
          (Graph.new.applyEvents [Event.down, Event.up]).hovering.isSome) ∧
        (∀ g : Graph, g.mouse_up.dragging = false ∧ g.mouse_out.dragging = false)) :=
  ⟨⟨rfl, rfl⟩, drag_implies_hover_invariant Graph.new [Event.down, Event.up] rfl rfl⟩

/-- C7: after `mouse_out` the hover is cleared and dragging is false, and any
subsequent sequence of `mouse_move` events (no intervening `mouse_down`)
keeps `dragging = false` throughout — `mouse_move` never writes `dragging`. -/
theorem mouse_out_then_moves_never_drag (g : Graph)
    (moves : List (Position × Position)) :
    g.mouse_out.hovering = none ∧ g.mouse_out.dragging = false ∧
      (moves.foldl (fun acc m => acc.mouse_move m.1 m.2) g.mouse_out).dragging = false := by
  refine ⟨rfl, rfl, ?_⟩
  have key : ∀ (ms : List (Position × Position)) (g1 : Graph), g1.dragging = false →
      (ms.foldl (fun acc m => acc.mouse_move m.1 m.2) g1).dragging = false := by
    intro ms
    induction ms with
    | nil => intro g1 hg1; exact hg1
    | cons m rest ih =>
      intro g1 hg1
      simp only [List.foldl_cons]
      exact ih _ ((mouse_move_dragging g1 m.1 m.2).trans hg1)
  exact key moves g.mouse_out rfl

/-- C8: a self-loop `add_edge(a, a, w)` leaves the graph completely
unchanged — no entry in either adjacency index, same node and edge counts. -/
theorem add_edge_self_loop_is_noop (g : Graph) (a : Node) (w : EdgeProperties) :
    g.add_edge a a w = g := by
  simp [Graph.add_edge]

/-- C9: bounding-box hit-testing is inclusive on all four bounds: the exact
top-left corner and the exact bottom-right corner `position + size` are
contained (and `first_node` returns the node there whenever it is the only
containing node), while points one unit outside either bound are not
contained. -/
theorem hit_test_inclusive_bounds (g : Graph) (n : Node) (s : NodeState)
    (hmem : (n, s) ∈ g.nodes) (hw : 0 ≤ s.size.width) (hh : 0 ≤ s.size.height) :
    s.contains s.position ∧
      s.contains ⟨s.position.x + s.size.width, s.position.y + s.size.height⟩ ∧
      ¬ s.contains ⟨s.position.x - 1, s.position.y⟩ ∧
      ¬ s.contains ⟨s.position.x + s.size.width + 1, s.position.y⟩ ∧
      ¬ s.contains ⟨s.position.x, s.position.y - 1⟩ ∧
      ¬ s.contains ⟨s.position.x, s.position.y + s.size.height + 1⟩ ∧
      ((∀ m t, (m, t) ∈ g.nodes → t.contains s.position → (m, t) = (n, s)) →
        g.first_node s.position = some (n, s)) ∧
      ((∀ m t, (m, t) ∈ g.nodes →
          t.contains ⟨s.position.x + s.size.width, s.position.y + s.size.height⟩ →
          (m, t) = (n, s)) →
        g.first_node ⟨s.position.x + s.size.width, s.position.y + s.size.height⟩ =
          some (n, s)) := by
  have hfn : ∀ (pos : Position), s.contains pos →
      (∀ m t, (m, t) ∈ g.nodes → t.contains pos → (m, t) = (n, s)) →
      g.first_node pos = some (n, s) := by
    classical
    intro pos hc hu
    unfold Graph.first_node
    apply find?_eq_some_of_unique _ _ _ hmem
    · rw [decide_eq_true_eq]
      exact hc
    · intro y hy hpy
      rw [decide_eq_true_eq] at hpy
      exact hu y.1 y.2 (by simpa using hy) hpy
  have c1 : s.contains s.position :=
    ⟨le_refl _, le_refl _, by linarith, by linarith⟩
  have c2 : s.contains ⟨s.position.x + s.size.width, s.position.y + s.size.height⟩ :=
    ⟨by dsimp [NodeState.contains]; linarith, by dsimp; linarith, le_refl _, le_refl _⟩
  refine ⟨c1, c2, ?_, ?_, ?_, ?_, fun hu => hfn _ c1 hu, fun hu => hfn _ c2 hu⟩
  · intro hcon
    have := hcon.1
    dsimp at this
    linarith
  · intro hcon
    have := hcon.2.2.1
    dsimp at this
    linarith
  · intro hcon
    have := hcon.2.1
    dsimp at this
    linarith
  · intro hcon
    have := hcon.2.2.2
    dsimp at this
    linarith

/-- C9 witness: a single 10×10 node at the origin. -/
theorem hit_test_inclusive_bounds_witness :
    ((⟨0⟩, originBox) ∈ singleNodeG.nodes ∧ (0:ℝ) ≤ originBox.size.width ∧
        (0:ℝ) ≤ originBox.size.height) ∧
      singleNodeG.first_node originBox.position = some (⟨0⟩, originBox) :=
  ⟨⟨by simp [singleNodeG], by norm_num [originBox], by norm_num [originBox]⟩,
    (hit_test_inclusive_bounds singleNodeG ⟨0⟩ originBox (by simp [singleNodeG])
        (by norm_num [originBox]) (by norm_num [originBox])).2.2.2.2.2.2.1
      (by
        intro m t hmt _
        simpa [singleNodeG] using hmt)⟩

/-- Evaluation helper: `atan2 0 x` for nonnegative `x` is zero (aim point to
the right or coincident). -/
theorem atan2_zero_of_nonneg (x : ℝ) (hx : 0 ≤ x) : atan2 0 x = 0 := by
  unfold atan2
  have h : (⟨x, 0⟩ : ℂ) = (x : ℂ) := by
    apply Complex.ext <;> simp
  rw [h]
  exact Complex.arg_ofReal_of_nonneg hx

/-- Evaluation helper: `atan2 0 x` for negative `x` is `π` (aim point to the
left). -/
theorem atan2_zero_of_neg (x : ℝ) (hx : x < 0) : atan2 0 x = Real.pi := by
  unfold atan2
  have h : (⟨x, 0⟩ : ℂ) = (x : ℂ) := by
    apply Complex.ext <;> simp
  rw [h]
  exact Complex.arg_ofReal_of_neg hx

/-- C4: while `dragging` is set and node `n` is hovered, a tick never changes
the stored state of `n` (whatever edges are incident to it), and it changes
no field of the graph other than the node store. -/
theorem tick_never_moves_dragged_node (g g' : Graph) (n : Node)
    (hd : g.dragging = true) (hh : g.hovering = some n)
    (hw : g.tick = some g') :
    lookupA g'.nodes n = lookupA g.nodes n ∧ g'.edges = g.edges ∧
      g'.edges_rev = g.edges_rev ∧ g'.hovering = g.hovering ∧
      g'.dragging = g.dragging := by
  unfold Graph.tick Graph.walk_edges at hw
  rcases Option.map_eq_some'.mp hw with ⟨ns', hfold, hg'⟩
  subst hg'
  refine ⟨?_, rfl, rfl, rfl, rfl⟩
  refine foldlM_some_invariant _ (fun ms => lookupA ms n = lookupA g.nodes n)
    g.edges g.nodes ns' hfold rfl ?_
  intro e _ x y hx hp
  refine (processEdge_preserves_lookup g.dragging g.hovering x y e n ?_ ?_ hp).trans hx
  · intro hef
    rw [hd, hh, hef]
    simp
  · intro het
    rw [hd, hh, het]
    simp

/-- C4 witness: a dragged node with one settled incident edge. -/
theorem tick_never_moves_dragged_node_witness :
    (dragSettledG.dragging = true ∧ dragSettledG.hovering = some ⟨0⟩ ∧
        dragSettledG.tick = some dragSettledG) ∧
      lookupA dragSettledG.nodes ⟨0⟩ = lookupA dragSettledG.nodes ⟨0⟩ := by
  have hdist : Position.delta pointA.position pointB34.position = 5 :=
    Position.delta_eval _ _ 5 (by norm_num)
      (by simp only [pointA, pointB34]; norm_num)
  have hsettle : ¬ (|edgeDelta pointA pointB34
      ((⟨⟨5⟩⟩ : EdgeState).properties.weight)| > 0.1) := by
    unfold edgeDelta walkEdgeDistance
    rw [hdist]
    norm_num
  have h0 : lookupA dragSettledG.nodes (⟨0⟩ : Node) = some pointA := rfl
  have h1 : lookupA dragSettledG.nodes (⟨1⟩ : Node) = some pointB34 := rfl
  have hstep : processEdge dragSettledG.dragging dragSettledG.hovering
      dragSettledG.nodes ((⟨0⟩, ⟨1⟩), ⟨⟨5⟩⟩) = some dragSettledG.nodes :=
    processEdge_settled _ _ _ ((⟨0⟩, ⟨1⟩), ⟨⟨5⟩⟩) pointA pointB34 h0 h1 hsettle
  have htick : dragSettledG.tick = some dragSettledG := by
    unfold Graph.tick Graph.walk_edges
    rw [show dragSettledG.edges = [((⟨0⟩, ⟨1⟩), ⟨⟨5⟩⟩)] from rfl,
      List.foldlM_cons]
    simp only [hstep]
    rfl
  exact ⟨⟨rfl, rfl, htick⟩,
    (tick_never_moves_dragged_node dragSettledG dragSettledG ⟨0⟩ rfl rfl htick).1⟩

/-- Reduction helper: `some a >>= f` computes to `f a` for `Option`. -/
theorem option_some_bind {α β : Type} (a : α) (f : α → Option β) :
    (some a >>= f) = f a := rfl

/-- Reduction helper: `Option.bind` on a `some`. -/
theorem option_bind_some {α β : Type} (a : α) (f : α → Option β) :
    (Option.some a).bind f = f a := rfl

/-- Reduction helper: `Option.map` on a `some`. -/
theorem option_map_some {α β : Type} (a : α) (f : α → β) :
    (Option.some a).map f = some (f a) := rfl

/-- Reduction helper: `pure` is `some` for `Option`. -/
theorem option_pure_eq_some {α : Type} (a : α) : (pure a : Option α) = some a := rfl

/-- Evaluation of one active (out-of-tolerance) edge step when neither
endpoint is drag-exempt and the endpoints are distinct: first the `from`
node moves toward the `to` center, then the `to` node moves toward the
updated `from` center. -/
theorem processEdge_active (d : Bool) (hov : Option Node)
    (ns : List (Node × NodeState)) (e : (Node × Node) × EdgeState)
    (fromS toS : NodeState) (hne : e.1.1 ≠ e.1.2)
    (h1 : lookupA ns e.1.1 = some fromS) (h2 : lookupA ns e.1.2 = some toS)
    (hgt : |edgeDelta fromS toS e.2.properties.weight| > 0.1)
    (hcf : d = false ∨ hov ≠ some e.1.1) (hct : d = false ∨ hov ≠ some e.1.2) :
    processEdge d hov ns e = some (updateA
      (updateA ns e.1.1
        (fromS.move_to (edgeDelta fromS toS e.2.properties.weight / 2) toS.center))
      e.1.2
      (toS.move_to (edgeDelta fromS toS e.2.properties.weight / 2)
        (fromS.move_to (edgeDelta fromS toS e.2.properties.weight / 2)
          toS.center).center)) := by
  unfold processEdge
  rw [h1, h2]
  dsimp only
  rw [if_pos hgt, if_pos hcf]
  unfold processEdgeSnd
  rw [show lookupA (updateA ns e.1.1
        (fromS.move_to (edgeDelta fromS toS e.2.properties.weight / 2) toS.center))
        e.1.1 =
      some (fromS.move_to (edgeDelta fromS toS e.2.properties.weight / 2) toS.center)
    from by rw [lookupA_updateA_self, h1]; rfl]
  rw [show lookupA (updateA ns e.1.1
        (fromS.move_to (edgeDelta fromS toS e.2.properties.weight / 2) toS.center))
        e.1.2 = some toS
    from by rw [lookupA_updateA_ne _ _ _ _ hne]; exact h2]
  dsimp only
  rw [if_pos hct]

/-- Evaluation helper: a `move_to` whose aim point lies exactly to the right
of (or on) the node's anchor moves the node horizontally by the clamped
amount. -/
theorem move_to_right_eval (s : NodeState) (amount : ℝ) (p : Position)
    (hy : p.y - s.position.y = 0) (hx : 0 ≤ p.x - s.position.x) :
    (s.move_to amount p).position =
      ⟨s.position.x + max (min amount MAX_MOVE) (-MAX_MOVE), s.position.y⟩ := by
  unfold NodeState.move_to
  dsimp only
  rw [hy, atan2_zero_of_nonneg _ hx, Real.cos_zero, Real.sin_zero, one_mul,
    zero_mul, add_zero]

/-- C5 (amended): for an edge (a, b) whose pre-step delta is within the 0.1
tolerance, one relaxation step leaves both endpoint states unchanged,
provided no OTHER stored edge is incident to a or b (an unsettled second
edge sharing an endpoint moves that endpoint — see the counterexample). -/
theorem settled_isolated_edge_keeps_endpoints (g g' : Graph) (a b : Node)
    (e : EdgeState) (sa sb : NodeState)
    (hmem : ((a, b), e) ∈ g.edges)
    (hsa : lookupA g.nodes a = some sa) (hsb : lookupA g.nodes b = some sb)
    (hsettle : |edgeDelta sa sb e.properties.weight| ≤ 0.1)
    (honly : ∀ ent ∈ g.edges, ent = ((a, b), e) ∨
      (ent.1.1 ≠ a ∧ ent.1.1 ≠ b ∧ ent.1.2 ≠ a ∧ ent.1.2 ≠ b))
    (hw : g.walk_edges = some g') :
    lookupA g'.nodes a = some sa ∧ lookupA g'.nodes b = some sb := by
  unfold Graph.walk_edges at hw
  rcases Option.map_eq_some'.mp hw with ⟨ns', hfold, hg'⟩
  subst hg'
  refine foldlM_some_invariant _
    (fun ms => lookupA ms a = some sa ∧ lookupA ms b = some sb)
    g.edges g.nodes ns' hfold ⟨hsa, hsb⟩ ?_
  intro ent hent x y hx hp
  rcases honly ent hent with hcase | hcase
  · subst hcase
    have heq : processEdge g.dragging g.hovering x ((a, b), e) = some x :=
      processEdge_settled _ _ x ((a, b), e) sa sb hx.1 hx.2 (not_lt.mpr hsettle)
    rw [heq] at hp
    injection hp with hp
    rw [← hp]
    exact hx
  · have ha := processEdge_preserves_lookup _ _ x y ent a
      (fun hf => absurd hf hcase.1) (fun ht => absurd ht hcase.2.2.1) hp
    have hb := processEdge_preserves_lookup _ _ x y ent b
      (fun hf => absurd hf hcase.2.1) (fun ht => absurd ht hcase.2.2.2) hp
    exact ⟨by rw [ha]; exact hx.1, by rw [hb]; exact hx.2⟩

/-- C5 witness: a single settled edge with nothing else in the graph. -/
theorem settled_isolated_edge_keeps_endpoints_witness :
    ((((⟨0⟩, ⟨1⟩), (⟨⟨10⟩⟩ : EdgeState)) ∈ settledOnlyG.edges) ∧
        lookupA settledOnlyG.nodes ⟨0⟩ = some pointA ∧
        lookupA settledOnlyG.nodes ⟨1⟩ = some pointB10 ∧
        |edgeDelta pointA pointB10 ((⟨⟨10⟩⟩ : EdgeState).properties.weight)| ≤ 0.1 ∧
        settledOnlyG.walk_edges = some settledOnlyG) ∧
      lookupA settledOnlyG.nodes ⟨0⟩ = some pointA ∧
      lookupA settledOnlyG.nodes ⟨1⟩ = some pointB10 := by
  have hdist : Position.delta pointA.position pointB10.position = 10 :=
    Position.delta_eval _ _ 10 (by norm_num)
      (by simp only [pointA, pointB10]; norm_num)
  have hsettle : |edgeDelta pointA pointB10
      ((⟨⟨10⟩⟩ : EdgeState).properties.weight)| ≤ 0.1 := by
    unfold edgeDelta walkEdgeDistance
    rw [hdist]
    norm_num
  have h0 : lookupA settledOnlyG.nodes (⟨0⟩ : Node) = some pointA := rfl
  have h1 : lookupA settledOnlyG.nodes (⟨1⟩ : Node) = some pointB10 := rfl
  have hstep : processEdge settledOnlyG.dragging settledOnlyG.hovering
      settledOnlyG.nodes ((⟨0⟩, ⟨1⟩), ⟨⟨10⟩⟩) = some settledOnlyG.nodes :=
    processEdge_settled _ _ _ ((⟨0⟩, ⟨1⟩), ⟨⟨10⟩⟩) pointA pointB10 h0 h1
      (not_lt.mpr hsettle)
  have hwalk : settledOnlyG.walk_edges = some settledOnlyG := by
    unfold Graph.walk_edges
    rw [show settledOnlyG.edges = [((⟨0⟩, ⟨1⟩), ⟨⟨10⟩⟩)] from rfl,
      List.foldlM_cons]
    simp only [hstep]
    rfl
  have hmem : (((⟨0⟩, ⟨1⟩), (⟨⟨10⟩⟩ : EdgeState)) ∈ settledOnlyG.edges) := by
    rw [show settledOnlyG.edges = [((⟨0⟩, ⟨1⟩), ⟨⟨10⟩⟩)] from rfl]
    exact List.mem_singleton.mpr rfl
  refine ⟨⟨hmem, h0, h1, hsettle, hwalk⟩, ?_⟩
  refine settled_isolated_edge_keeps_endpoints settledOnlyG settledOnlyG ⟨0⟩ ⟨1⟩
    ⟨⟨10⟩⟩ pointA pointB10 hmem h0 h1 hsettle ?_ hwalk
  intro ent hent
  rw [show settledOnlyG.edges = [((⟨0⟩, ⟨1⟩), ⟨⟨10⟩⟩)] from rfl] at hent
  exact Or.inl (List.mem_singleton.mp hent)

/-- C5 counterexample: in `settledPlusActiveG` the edge (0, 1) is exactly at
its rest length before the step (delta 0 ≤ 0.1), yet one relaxation step
moves node 1 from x = 10 to x = 5, because the OTHER edge (1, 2) is far from
its rest length and shares the endpoint — so the claim "positions of both
endpoints of a settled edge are unchanged" is false as stated. -/
theorem settled_edge_endpoint_moved_cex :
    ((((⟨0⟩, ⟨1⟩), (⟨⟨10⟩⟩ : EdgeState)) ∈ settledPlusActiveG.edges) ∧
        lookupA settledPlusActiveG.nodes ⟨1⟩ = some pointB10 ∧
        |edgeDelta pointA pointB10 10| ≤ 0.1 ∧
        pointB10.position.x = 10) ∧
      (settledPlusActiveG.walk_edges.bind fun g2 =>
        (lookupA g2.nodes ⟨1⟩).map fun st => st.position.x) = some 5 := by
  have h0 : lookupA settledPlusActiveG.nodes (⟨0⟩ : Node) = some pointA := rfl
  have h1 : lookupA settledPlusActiveG.nodes (⟨1⟩ : Node) = some pointB10 := rfl
  have h2 : lookupA settledPlusActiveG.nodes (⟨2⟩ : Node) = some pointC20 := rfl
  have hdistAB : Position.delta pointA.position pointB10.position = 10 :=
    Position.delta_eval _ _ 10 (by norm_num)
      (by simp only [pointA, pointB10]; norm_num)
  have hsettleAB : |edgeDelta pointA pointB10 10| ≤ 0.1 := by
    unfold edgeDelta walkEdgeDistance
    rw [hdistAB]
    norm_num
  have hstep1 : processEdge settledPlusActiveG.dragging settledPlusActiveG.hovering
      settledPlusActiveG.nodes ((⟨0⟩, ⟨1⟩), ⟨⟨10⟩⟩) = some settledPlusActiveG.nodes :=
    processEdge_settled _ _ _ ((⟨0⟩, ⟨1⟩), ⟨⟨10⟩⟩) pointA pointB10 h0 h1
      (not_lt.mpr hsettleAB)
  have hdistBC : Position.delta pointB10.position pointC20.position = 10 :=
    Position.delta_eval _ _ 10 (by norm_num)
      (by simp only [pointB10, pointC20]; norm_num)
  have hwBC : walkEdgeDistance pointB10 pointC20 = 10 := by
    unfold walkEdgeDistance
    rw [hdistBC]
    norm_num
  have hdeltaBC : edgeDelta pointB10 pointC20 100 = -90 := by
    unfold edgeDelta
    rw [hwBC]
    norm_num
  have hgtBC : |edgeDelta pointB10 pointC20 100| > 0.1 := by
    rw [hdeltaBC]
    norm_num
  have hstep2 := processEdge_active settledPlusActiveG.dragging
    settledPlusActiveG.hovering settledPlusActiveG.nodes ((⟨1⟩, ⟨2⟩), ⟨⟨100⟩⟩)
    pointB10 pointC20 (by decide) h1 h2 hgtBC (Or.inl rfl) (Or.inl rfl)
  have hclamp : max (min ((-90 : ℝ) / 2) MAX_MOVE) (-MAX_MOVE) = -5 := by
    rw [MAX_MOVE]
    rw [min_eq_left (by norm_num : (-90 : ℝ) / 2 ≤ 5.0)]
    rw [max_eq_right (by norm_num : (-90 : ℝ) / 2 ≤ -(5.0 : ℝ))]
    norm_num
  have hmoved : (pointB10.move_to (edgeDelta pointB10 pointC20 100 / 2)
      pointC20.center).position = ⟨5, 0⟩ := by
    rw [move_to_right_eval pointB10 _ pointC20.center
      (by simp only [pointC20, pointB10, NodeState.center]; norm_num)
      (by simp only [pointC20, pointB10, NodeState.center]; norm_num)]
    rw [hdeltaBC, hclamp]
    simp only [pointB10]
    norm_num
  refine ⟨⟨List.mem_cons_self _ _, h1, hsettleAB, rfl⟩, ?_⟩
  unfold Graph.walk_edges
  rw [show settledPlusActiveG.edges =
    [((⟨0⟩, ⟨1⟩), ⟨⟨10⟩⟩), ((⟨1⟩, ⟨2⟩), ⟨⟨100⟩⟩)] from rfl]
  rw [List.foldlM_cons]
  simp only [hstep1, option_some_bind]
  rw [List.foldlM_cons]
  simp only [hstep2, option_some_bind]
  rw [List.foldlM_nil]
  simp only [option_pure_eq_some, option_map_some, option_bind_some]
  rw [lookupA_updateA_ne _ _ _ _ (by decide : (⟨2⟩ : Node) ≠ ⟨1⟩)]
  rw [lookupA_updateA_self, h1]
  simp only [option_map_some]
  rw [hmoved]

/-!  Lookup safety of ticks and draws over validly-constructed graphs. -/

theorem add_edge_nodes (g : Graph) (a b : Node) (w : EdgeProperties) :
    (g.add_edge a b w).nodes = g.nodes := by
  unfold Graph.add_edge
  split <;> rfl

theorem add_edge_counter (g : Graph) (a b : Node) (w : EdgeProperties) :
    (g.add_edge a b w).counter = g.counter := by
  unfold Graph.add_edge
  split <;> rfl

theorem add_edge_mem_edges (g : Graph) (a b : Node) (w : EdgeProperties)
    (ent : (Node × Node) × EdgeState) (hent : ent ∈ (g.add_edge a b w).edges) :
    ent = (canonPair a b, ⟨w⟩) ∨ ent ∈ g.edges := by
  unfold Graph.add_edge at hent
  by_cases hab : a = b
  · rw [if_pos hab] at hent
    exact Or.inr hent
  · rw [if_neg hab] at hent
    exact mem_insertA _ _ _ _ hent

theorem buildFrom_good : ∀ (ops : List BuildOp) (g : Graph), GoodCounter g →
    ValidOps g.counter ops → GoodCounter (g.buildFrom ops) := by
  intro ops
  induction ops with
  | nil => intro g hg _; exact hg
  | cons op rest ih =>
    intro g hg hv
    cases op with
    | addNode p s props =>
      refine ih _ ⟨?_, ?_⟩ hv
      · intro i hi
        dsimp only [Graph.applyOp]
        by_cases hic : i = g.counter
        · subst hic
          rw [show ((g.add_node p s props).1).nodes =
            insertA g.nodes ⟨g.counter⟩
              { properties := props, handle := ⟨g.counter⟩,
                position := p, size := s } from rfl]
          rw [lookupA_insertA_self]
          rfl
        · have hlt : i < g.counter := by
            have hi' : i < g.counter + 1 := hi
            omega
          rw [show ((g.add_node p s props).1).nodes =
            insertA g.nodes ⟨g.counter⟩
              { properties := props, handle := ⟨g.counter⟩,
                position := p, size := s } from rfl]
          rw [lookupA_insertA_ne _ _ _ _
            (fun hcontra => hic (congrArg Node.id hcontra).symm)]
          exact hg.1 i hlt
      · intro ent hent
        have hb := hg.2 ent hent
        exact ⟨Nat.lt_succ_of_lt hb.1, Nat.lt_succ_of_lt hb.2⟩
    | addEdge a b props =>
      obtain ⟨ha, hb, hrest⟩ := hv
      have hn := add_edge_nodes g a b props
      have hc := add_edge_counter g a b props
      refine ih _ ⟨?_, ?_⟩ (by dsimp only [Graph.applyOp]; rw [hc]; exact hrest)
      · intro i hi
        dsimp only [Graph.applyOp] at hi ⊢
        rw [hn]
        rw [hc] at hi
        exact hg.1 i hi
      · intro ent hent
        dsimp only [Graph.applyOp] at hent ⊢
        rw [hc]
        rcases add_edge_mem_edges g a b props ent hent with hcase | hcase
        · rw [hcase]
          unfold canonPair
          by_cases hlt : a.id < b.id
          · rw [if_pos hlt]
            exact ⟨ha, hb⟩
          · rw [if_neg hlt]
            exact ⟨hb, ha⟩
        · exact hg.2 ent hcase
    | removeNode n => exact ih _ hg hv
    | removeEdge => exact ih _ hg hv

theorem wellFormed_of_good (g : Graph) (hg : GoodCounter g) : WellFormed g := by
  intro ent hent
  obtain ⟨hb1, hb2⟩ := hg.2 ent hent
  exact ⟨hg.1 ent.1.1.id hb1, hg.1 ent.1.2.id hb2⟩

theorem walk_edges_isSome_of_wellFormed (g : Graph) (hwf : WellFormed g) :
    ∃ g', g.walk_edges = some g' := by
  have step : ∀ a ∈ g.edges, ∀ x,
      (∀ ent ∈ g.edges, (lookupA x ent.1.1).isSome ∧ (lookupA x ent.1.2).isSome) →
      ∃ y, processEdge g.dragging g.hovering x a = some y ∧
        (∀ ent ∈ g.edges, (lookupA y ent.1.1).isSome ∧ (lookupA y ent.1.2).isSome) := by
    intro a ha x hx
    obtain ⟨y, hsome, hpres⟩ :=
      processEdge_isSome g.dragging g.hovering x a (hx a ha).1 (hx a ha).2
    exact ⟨y, hsome, fun ent hent => by rw [hpres, hpres]; exact hx ent hent⟩
  obtain ⟨ns', hfold, _⟩ := foldlM_isSome_invariant
    (fun ns e => processEdge g.dragging g.hovering ns e)
    (fun ns => ∀ ent ∈ g.edges, (lookupA ns ent.1.1).isSome ∧ (lookupA ns ent.1.2).isSome)
    g.edges g.nodes hwf step
  refine ⟨{ g with nodes := ns' }, ?_⟩
  unfold Graph.walk_edges
  rw [hfold]
  rfl

theorem draw_isSome_of_wellFormed (g : Graph) (hwf : WellFormed g)
    (width height dpi : ℝ) : (g.draw width height dpi).isSome := by
  have step : ∀ a ∈ g.edges, ∀ (x : List DrawOp), True →
      ∃ y, drawEdgeOps g.nodes x a = some y ∧ True := by
    intro a ha x _
    obtain ⟨fromS, hf⟩ := Option.isSome_iff_exists.mp (hwf a ha).1
    obtain ⟨toS, ht⟩ := Option.isSome_iff_exists.mp (hwf a ha).2
    refine ⟨x ++ [DrawOp.line fromS.center toS.center], ?_, trivial⟩
    unfold drawEdgeOps
    rw [hf, ht]
  obtain ⟨ops, hfold, _⟩ := foldlM_isSome_invariant (drawEdgeOps g.nodes)
    (fun _ => True) g.edges [] trivial step
  unfold Graph.draw
  rw [hfold]
  rfl

/-- C10: on any graph built by construction calls whose `add_edge` arguments
are handles previously returned by `add_node` on the same graph (with
`remove_node`/`remove_edge` being no-ops), every node-map lookup performed by
a tick (`walk_edges`) and by `draw` succeeds; on a graph holding a handle
from elsewhere, the lookups fail (the source would panic on `unwrap()`). -/
theorem valid_build_lookups_succeed (ops : List BuildOp) (hv : ValidOps 0 ops) :
    (∃ g', (build ops).walk_edges = some g') ∧
      (∀ width height dpi, ((build ops).draw width height dpi).isSome) ∧
      foreignHandleG.walk_edges = none ∧
      foreignHandleG.draw 100 100 1 = none := by
  have hnew : GoodCounter Graph.new := by
    constructor
    · intro i hi
      exact absurd hi (Nat.not_lt_zero i)
    · intro ent hent
      cases hent
  have hgood : GoodCounter (build ops) := buildFrom_good ops Graph.new hnew hv
  have hwf := wellFormed_of_good _ hgood
  have h0 : lookupA foreignHandleG.nodes (⟨0⟩ : Node) =
      some { properties := ⟨"a"⟩, handle := ⟨0⟩, position := ⟨0, 0⟩,
             size := ⟨1, 1⟩ } := rfl
  have h5 : lookupA foreignHandleG.nodes (⟨5⟩ : Node) = none := rfl
  refine ⟨walk_edges_isSome_of_wellFormed _ hwf,
    fun width height dpi => draw_isSome_of_wellFormed _ hwf width height dpi,
    ?_, ?_⟩
  · have hpe : processEdge foreignHandleG.dragging foreignHandleG.hovering
        foreignHandleG.nodes ((⟨0⟩, ⟨5⟩), ⟨⟨3⟩⟩) = none := by
      unfold processEdge
      rw [h0, h5]
    unfold Graph.walk_edges
    rw [show foreignHandleG.edges = [((⟨0⟩, ⟨5⟩), ⟨⟨3⟩⟩)] from rfl]
    rw [List.foldlM_cons]
    simp only [hpe]
    rfl
  · have hpe : drawEdgeOps foreignHandleG.nodes [] ((⟨0⟩, ⟨5⟩), ⟨⟨3⟩⟩) = none := by
      unfold drawEdgeOps
      rw [h0, h5]
    unfold Graph.draw
    rw [show foreignHandleG.edges = [((⟨0⟩, ⟨5⟩), ⟨⟨3⟩⟩)] from rfl]
    rw [List.foldlM_cons, hpe]
    rfl

/-- C10 witness: a concrete valid construction sequence. -/
theorem valid_build_lookups_succeed_witness :
    ValidOps 0 validOpsExample ∧
      (∃ g', (build validOpsExample).walk_edges = some g') := by
  have hv : ValidOps 0 validOpsExample :=
    ⟨by norm_num, by norm_num, trivial⟩
  exact ⟨hv, (valid_build_lookups_succeed validOpsExample hv).1⟩

end WebGraph
